import Mathlib

/-!
Verification of the MyReports HR analytics core: a shallow embedding of the
access-control resolution (`getAccessContextByEmail`, `fetchReportingStructure`
from src/lib/auth and src/lib/api/bamboohr/client.ts) and of the weekly
office-attendance compliance computation
(src/features/hr-dashboard/actions/quebec-compliance-actions.ts), together
with theorems settling the specification claims about them.

Modeling conventions:
* JS strings are lists of Unicode code points (`Str := List Nat`).
* Calendar days are integers counting days from 2024-01-01 (a Monday), so
  `dayOfWeek` coincides with JS `Date.prototype.getDay` (0 = Sunday .. 6 =
  Saturday) and adding 1 moves to the next calendar day.
* JS numbers appearing in sums, averages and hours are rationals; day counts
  are integers.
* A fallible `await fetch...()` call site is an `Except Unit` value passed to
  the embedded function: `.ok` is the fetched data, `.error ()` a thrown error.
-/

namespace MyReports

/-- JS strings, as lists of Unicode code points. -/
abbrev Str := List Nat

/-- The code points of a Lean string literal, used for concrete inputs. -/
def str (s : String) : Str := s.data.map Char.toNat

/-- One code point of JS `toLowerCase`, for the ASCII range that every email,
status and location string compared by the repository uses. -/
def lowerCp (n : Nat) : Nat := if 65 ≤ n ∧ n ≤ 90 then n + 32 else n

/-- JS `String.prototype.toLowerCase` (ASCII range). -/
def toLower (s : Str) : Str := s.map lowerCp

/-- The code points JS `String.prototype.trim` strips. -/
def isWsCp (n : Nat) : Bool :=
  decide (n = 9 ∨ n = 10 ∨ n = 11 ∨ n = 12 ∨ n = 13 ∨ n = 32 ∨ n = 160 ∨
    n = 8232 ∨ n = 8233 ∨ n = 65279)

/-- JS `String.prototype.trim`. -/
def trim (s : Str) : Str := ((s.dropWhile isWsCp).reverse.dropWhile isWsCp).reverse

/-- The normalization `userEmail.toLowerCase().trim()` performed by `getAccessContextByEmail`. -/
def normalizeEmail (u : Str) : Str := trim (toLower u)

/-- A string is lowercase when lowercasing it changes nothing. -/
abbrev IsLowerStr (s : Str) : Prop := toLower s = s

/-! ## Calendar days -/

/-- JS `Date.prototype.getDay` for the day numbered `n` (day 0 = 2024-01-01,
a Monday): 0 = Sunday .. 6 = Saturday. -/
def dayOfWeek (n : Int) : Int := (n + 1) % 7

/-- The function `getWeekStart` from quebec-compliance-actions.ts:
`diff = d.getDate() - day + (day === 0 ? -6 : 1)`, i.e. the date moves back by
`day` days and forward by the correction. -/
def getWeekStart (n : Int) : Int :=
  n - dayOfWeek n + (if dayOfWeek n = 0 then -6 else 1)

/-- The function `getWeekEnd` from quebec-compliance-actions.ts. -/
def getWeekEnd (n : Int) : Int := getWeekStart n + 6

/-! ## Attendance records and weekly compliance
(quebec-compliance-actions.ts) -/

inductive Location where
  | Office
  | Remote
  | Unknown
deriving DecidableEq, Repr

/-- One row of `fetchOfficeAttendanceData`, as consumed by
`calculateWeeklyCompliance` (fields `email`, `date`, `location`,
`totalHours`). -/
structure OfficeAttendanceRecord where
  email : Str
  date : Int
  location : Location
  totalHours : ℚ
deriving DecidableEq, Repr

/-- JS `Map.prototype.get` on an insertion-ordered association list. -/
def mapLookup {α : Type} : List (Int × α) → Int → Option α
  | [], _ => none
  | (k, v) :: m, k' => if k' = k then some v else mapLookup m k'

/-- JS `Map.prototype.set`: update in place, else append (insertion order). -/
def mapSet {α : Type} : List (Int × α) → Int → α → List (Int × α)
  | [], k, v => [(k, v)]
  | (k0, v0) :: m, k, v =>
      if k0 = k then (k0, v) :: m else (k0, v0) :: mapSet m k v

/-- One iteration of the dedup loop in `calculateWeeklyCompliance`:
`if (!existing || record.totalHours > existing.hours) dayLocations.set(...)`. -/
def dedupStep (m : List (Int × Location × ℚ)) (r : OfficeAttendanceRecord) :
    List (Int × Location × ℚ) :=
  match mapLookup m r.date with
  | none => mapSet m r.date (r.location, r.totalHours)
  | some e =>
      if r.totalHours > e.2 then mapSet m r.date (r.location, r.totalHours)
      else m

/-- The `dayLocations` map of `calculateWeeklyCompliance`: per-day dedup that
keeps the record with the greater `totalHours` (strict comparison, so the
first record seen wins ties). -/
def dayLocations (records : List OfficeAttendanceRecord) :
    List (Int × Location × ℚ) :=
  records.foldl dedupStep []

/-- Insertion sort, standing in for the stable JS `Array.prototype.sort`. -/
def insertSorted {α : Type} (le : α → α → Bool) (x : α) : List α → List α
  | [] => [x]
  | y :: ys => if le x y then x :: y :: ys else y :: insertSorted le x ys

def insertionSort {α : Type} (le : α → α → Bool) : List α → List α
  | [] => []
  | x :: xs => insertSorted le x (insertionSort le xs)

/-- The `WeeklyCompliance` interface. -/
structure WeeklyCompliance where
  weekStart : Int
  weekEnd : Int
  officeDays : Int
  remoteDays : Int
  totalDays : Int
  isCompliant : Bool
  dailyBreakdown : List (Int × Location × ℚ)
deriving DecidableEq, Repr

/-- The body of `calculateWeeklyCompliance`'s per-week loop: dedup the bucket,
count office and remote days, and build the week record
(`totalDays: officeDays + remoteDays`). -/
def mkWeek (weekStartDay : Int) (records : List OfficeAttendanceRecord) :
    WeeklyCompliance :=
  let days := dayLocations records
  let officeDays : Int := days.countP (fun d => decide (d.2.1 = Location.Office))
  let remoteDays : Int := days.countP (fun d => decide (d.2.1 = Location.Remote))
  { weekStart := weekStartDay
    weekEnd := getWeekEnd weekStartDay
    officeDays := officeDays
    remoteDays := remoteDays
    totalDays := officeDays + remoteDays
    isCompliant := decide (2 ≤ officeDays)
    dailyBreakdown := insertionSort (fun a b => decide (a.1 ≤ b.1)) days }

/-- The function `calculateWeeklyCompliance`: one week record per bucket of the
insertion-ordered week map, sorted most recent first. -/
def calculateWeeklyCompliance
    (weeklyRecords : List (Int × List OfficeAttendanceRecord)) :
    List WeeklyCompliance :=
  insertionSort (fun a b => decide (b.weekStart ≤ a.weekStart))
    (weeklyRecords.map fun b => mkWeek b.1 b.2)

inductive WeekStatus where
  | Compliant
  | AtRisk
  | NonCompliant
  | NoData
deriving DecidableEq, Repr

/-- The function `getCurrentWeekStatus` from quebec-compliance-actions.ts, with dates as day
numbers (`formatDate` is injective on days, so comparing the formatted
week-start strings is comparing the underlying days). -/
def getCurrentWeekStatus (weeks : List WeeklyCompliance) (today : Int) :
    WeekStatus :=
  let currentWeekStart := getWeekStart today
  match weeks.find? (fun w => decide (w.weekStart = currentWeekStart)) with
  | none => WeekStatus.NoData
  | some w =>
      if w.totalDays = 0 then WeekStatus.NoData
      else if 2 ≤ w.officeDays then WeekStatus.Compliant
      else
        let d := dayOfWeek today
        let remainingDays := if d = 0 then 0 else 5 - d
        if 2 ≤ w.officeDays + remainingDays then WeekStatus.AtRisk
        else WeekStatus.NonCompliant

/-- Modelled from the spec's words, for comparison with the code: the number
of Mon-Fri weekdays strictly after `today` that still belong to `today`'s
Monday-Sunday week. -/
def specRemainingWorkdays (today : Int) : Int :=
  (([1, 2, 3, 4, 5, 6] : List Int).map fun j =>
    if getWeekStart (today + j) = getWeekStart today ∧
        1 ≤ dayOfWeek (today + j) ∧ dayOfWeek (today + j) ≤ 5
    then (1 : Int) else 0).sum

/-- Modelled from the spec's words, for comparison with the code: the
current-week classification rule of claim C8. -/
def specCurrentWeekClassification (weeks : List WeeklyCompliance)
    (today : Int) : WeekStatus :=
  match weeks.find? (fun w => decide (w.weekStart = getWeekStart today)) with
  | none => WeekStatus.NoData
  | some w =>
      if w.totalDays = 0 then WeekStatus.NoData
      else if 2 ≤ w.officeDays then WeekStatus.Compliant
      else if 2 ≤ w.officeDays + specRemainingWorkdays today then
        WeekStatus.AtRisk
      else WeekStatus.NonCompliant

/-- A week bucket with a single office day, for the concrete parts of C8. -/
def weekOneOfficeDay : WeeklyCompliance :=
  { weekStart := 0, weekEnd := 6, officeDays := 1, remoteDays := 0,
    totalDays := 1, isCompliant := false, dailyBreakdown := [] }

/-- A single attendance record whose deduplicated day has Unknown location
(day 2 = 2024-01-03, inside the week starting at day 0). -/
def unknownDayRecord : OfficeAttendanceRecord :=
  { email := str "a@x", date := 2, location := Location.Unknown,
    totalHours := 8 }

/-- The spec's dedup test vector: a 2-hour Remote and a 6-hour Office record
on the same day (day 0) for the same email. -/
def remoteTwoHours : OfficeAttendanceRecord :=
  { email := str "a@x", date := 0, location := Location.Remote,
    totalHours := 2 }

def officeSixHours : OfficeAttendanceRecord :=
  { email := str "a@x", date := 0, location := Location.Office,
    totalHours := 6 }

/-! ## Employee directory and access control
(src/lib/api/bamboohr/client.ts and the BambooHR-based access control of
src/lib/auth) -/

structure BambooHREmployee where
  id : Str
  displayName : Option Str := none
  firstName : Option Str := none
  lastName : Option Str := none
  jobTitle : Option Str := none
  workEmail : Option Str := none
  department : Option Str := none
  location : Option Str := none
  supervisorId : Option Str := none
  supervisorEId : Option Str := none
  supervisorEmail : Option Str := none
  status : Option Str := none
deriving DecidableEq, Repr

/-- JS truthiness of a nullable string (`null`, `undefined` and the empty
string are falsy). -/
def truthy : Option Str → Bool
  | none => false
  | some s => !s.isEmpty

/-- JS `===` between a nullable string and a string. -/
def optEqStr (o : Option Str) (v : Str) : Bool :=
  match o with
  | none => false
  | some s => decide (s = v)

/-- The check `emp.status?.toLowerCase() !== 'inactive'` (a missing status counts as
active). -/
def notInactive (e : BambooHREmployee) : Bool :=
  match e.status with
  | none => true
  | some s => !decide (toLower s = str "inactive")

/-- The filter of `fetchActiveEmployees`:
`emp.status?.toLowerCase() !== 'inactive' && emp.workEmail`. -/
def isActiveWithEmail (e : BambooHREmployee) : Bool :=
  notInactive e && truthy e.workEmail

/-- The hardcoded HR admin allowlist. -/
def HR_ADMIN_EMAILS : List Str :=
  [str "admin@company.com", str "hr@jestais.com"]

/-- The allowlist test `HR_ADMIN_EMAILS.some((admin) => admin.toLowerCase() ===
normalizedEmail)`. -/
def isHRAdminEmailOf (userEmail : Str) : Bool :=
  HR_ADMIN_EMAILS.any fun a => decide (toLower a = normalizeEmail userEmail)

structure EmailBasedAccessContext where
  userEmail : Str
  employeeId : Option Str
  employeeName : Option Str
  isHRAdmin : Bool
  isManager : Bool
  allowedEmails : List Str
  directReportCount : Nat
  totalReportCount : Nat
deriving DecidableEq, Repr

/-- The minimal self-only context returned both when the requester is not in
the directory and in the catch-all error fallback of
`getAccessContextByEmail`. -/
def selfOnlyContext (normalizedEmail : Str) : EmailBasedAccessContext :=
  { userEmail := normalizedEmail, employeeId := none, employeeName := none,
    isHRAdmin := false, isManager := false,
    allowedEmails := [normalizedEmail], directReportCount := 0,
    totalReportCount := 0 }

/-- JS `Set.prototype.add` on an insertion-ordered list. -/
def setAdd (l : List Str) (x : Str) : List Str :=
  if x ∈ l then l else l ++ [x]

/-- The check `emp.supervisorId === supId || emp.supervisorEId === supId`. -/
def reportsTo (e : BambooHREmployee) (supId : Str) : Bool :=
  optEqStr e.supervisorId supId || optEqStr e.supervisorEId supId

/-- The recursive `findReports` of `fetchReportingStructure`, with the shared
`visited` set and `reports` array as explicit state.  The JS recursion depth
is bounded by the number of employees because every recursive call first adds
an unvisited id to `visited`; `fuel` makes that bound explicit, and
`findReports_fuel_eq` proves every fuel beyond the bound computes the same
state, which is the termination argument for the traversal. -/
def findReports (all : List BambooHREmployee) :
    Nat → Str → List Str × List BambooHREmployee →
    List Str × List BambooHREmployee
  | 0, _, st => st
  | fuel + 1, supId, st =>
      all.foldl
        (fun st2 emp =>
          if reportsTo emp supId && !decide (emp.id ∈ st2.1) then
            findReports all fuel emp.id (st2.1 ++ [emp.id], st2.2 ++ [emp])
          else st2)
        st

/-- The function `fetchReportingStructure(managerId)`: the direct and indirect reports of a
manager, traversed over the active directory with the visited-set guard. -/
def fetchReportingStructure (dir : List BambooHREmployee) (managerId : Str) :
    List BambooHREmployee :=
  let active := dir.filter isActiveWithEmail
  (findReports active (active.length + 1) managerId ([], [])).2

/-- The name template of first and last name joined by a space, followed by
JS `.trim()`. -/
def firstLastName (e : BambooHREmployee) : Str :=
  trim (e.firstName.getD [] ++ [32] ++ e.lastName.getD [])

/-- JS `a || b` for a nullable string `a` and string fallback `b`. -/
def jsOrElse (a : Option Str) (b : Str) : Str :=
  match a with
  | none => b
  | some s => if s.isEmpty then b else s

/-- The function `getAccessContextByEmail`: `fetch` is the outcome of the BambooHR
directory fetches inside the function's `try` block (`.error ()` models a
thrown fetch error, which lands in the `catch`). -/
def getAccessContextByEmail (userEmail : Str)
    (fetch : Except Unit (List BambooHREmployee)) : EmailBasedAccessContext :=
  let normalizedEmail := normalizeEmail userEmail
  match fetch with
  | Except.error _ => selfOnlyContext normalizedEmail
  | Except.ok allEmployees =>
      if isHRAdminEmailOf userEmail then
        let allEmails :=
          (allEmployees.filter fun e => truthy e.workEmail).map fun e =>
            toLower (e.workEmail.getD [])
        { userEmail := normalizedEmail, employeeId := none,
          employeeName := some (str "HR Admin"), isHRAdmin := true,
          isManager := true, allowedEmails := allEmails,
          directReportCount := allEmails.length,
          totalReportCount := allEmails.length }
      else
        match allEmployees.find? (fun e =>
            match e.workEmail with
            | some w => decide (toLower w = normalizedEmail)
            | none => false) with
        | none => selfOnlyContext normalizedEmail
        | some currentUser =>
            let reports := fetchReportingStructure allEmployees currentUser.id
            let directReportCount :=
              allEmployees.countP fun emp => reportsTo emp currentUser.id
            let allowedEmails :=
              reports.foldl
                (fun acc r =>
                  if truthy r.workEmail then
                    setAdd acc (toLower (r.workEmail.getD []))
                  else acc)
                [normalizedEmail]
            let fl := firstLastName currentUser
            let userName :=
              jsOrElse currentUser.displayName
                (if fl.isEmpty then normalizedEmail else fl)
            { userEmail := normalizedEmail,
              employeeId := some currentUser.id,
              employeeName := some userName, isHRAdmin := false,
              isManager := decide (0 < reports.length),
              allowedEmails := allowedEmails,
              directReportCount := directReportCount,
              totalReportCount := reports.length }

/-- An inactive directory employee that still has a work email. -/
def inactiveEmployee : BambooHREmployee :=
  { id := str "1", workEmail := some (str "x@y"),
    status := some (str "inactive") }

/-- The access-control filter of `getQuebecComplianceReport`:
`emp.workEmail && allowedEmails.includes(emp.workEmail.toLowerCase())`. -/
def accessFilter (allowed : List Str) (l : List BambooHREmployee) :
    List BambooHREmployee :=
  l.filter fun e =>
    truthy e.workEmail && decide (toLower (e.workEmail.getD []) ∈ allowed)

/-! ## Productivity summaries
(bigquery/client.ts schema transform and the summary computation of
`getEmployeeProductivityData`) -/

/-- JS `Math.round`: round half toward positive infinity, i.e. the floor of
`q + 1/2` (computed as floor division of the reduced numerator by the
positive denominator). -/
def jsRound (q : ℚ) : Int := Int.fdiv (q + 1 / 2).num (q + 1 / 2).den

/-- The per-day score of the `DailyUserSummarySchema` transform:
`total_time > 0 ? Math.round(productive_time / total_time * 100) : null`. -/
def productivityScore (productive_time total_time : ℚ) : Option Int :=
  if 0 < total_time then some (jsRound (productive_time / total_time * 100))
  else none

/-- An `hr_productivity_daily` row as read by `getEmployeeProductivity`
(fields used by the summary computation; `PRODUCTIVITY_SCORE` is nullable). -/
structure ProductivityDaily where
  PRODUCTIVE_TIME : ℚ
  TOTAL_TIME : ℚ
  PRODUCTIVITY_SCORE : Option ℚ
deriving DecidableEq, Repr

structure EmployeeProductivitySummary where
  avgProductivityScore : Option ℚ
  totalProductiveHours : ℚ
  totalHours : ℚ
  daysTracked : Nat
deriving DecidableEq, Repr

/-- The summary block of `getEmployeeProductivityData`:
`avgScore = length > 0 ? reduce((sum, p) => sum + (p.PRODUCTIVITY_SCORE || 0), 0) / length : null`
and `avgProductivityScore = avgScore ? Math.round(avgScore * 100) / 100 :
null` (both `null` and `0` are falsy). -/
def employeeProductivitySummary (productivity : List ProductivityDaily) :
    EmployeeProductivitySummary :=
  let totalProductiveTime :=
    productivity.foldl (fun sum p => sum + p.PRODUCTIVE_TIME) 0
  let totalTime := productivity.foldl (fun sum p => sum + p.TOTAL_TIME) 0
  let avgScore : Option ℚ :=
    if 0 < productivity.length then
      some ((productivity.foldl
          (fun sum p => sum + p.PRODUCTIVITY_SCORE.getD 0) 0) /
        (productivity.length : ℚ))
    else none
  { avgProductivityScore :=
      match avgScore with
      | none => none
      | some a => if a = 0 then none else some ((jsRound (a * 100) : ℚ) / 100)
    totalProductiveHours := (jsRound (totalProductiveTime / 3600 * 100) : ℚ) / 100
    totalHours := (jsRound (totalTime / 3600 * 100) : ℚ) / 100
    daysTracked := productivity.length }

/-- A day with no tracked time: the schema assigns it a `null` score. -/
def zeroTimeDay : ProductivityDaily :=
  { PRODUCTIVE_TIME := 0, TOTAL_TIME := 0, PRODUCTIVITY_SCORE := none }

/-- A day tracked at an 80% productivity score. -/
def eightyPercentDay : ProductivityDaily :=
  { PRODUCTIVE_TIME := 2880, TOTAL_TIME := 3600,
    PRODUCTIVITY_SCORE := some 80 }

/-! ## The compliance report action (`getQuebecComplianceReport`) -/

/-- JS `String.prototype.includes` on code-point lists. -/
def strIncludes (s sub : Str) : Bool := decide (sub <:+: s)

/-- The function `isQuebecEmployee`: the lowercased location (empty when
missing) contains
one of the Quebec place names. -/
def isQuebecEmployee (e : BambooHREmployee) : Bool :=
  let loc := match e.location with
    | some l => toLower l
    | none => []
  strIncludes loc (str "quebec") || strIncludes loc (str "québec") ||
    strIncludes loc (str "qc") || strIncludes loc (str "montreal") ||
    strIncludes loc (str "montréal") || strIncludes loc (str "laval") ||
    strIncludes loc (str "gatineau") || strIncludes loc (str "sherbrooke") ||
    strIncludes loc (str "trois-rivières") || strIncludes loc (str "longueuil")

/-- JS `Map.prototype.get` with string keys. -/
def strMapLookup {α : Type} : List (Str × α) → Str → Option α
  | [], _ => none
  | (k, v) :: m, k' => if k' = k then some v else strMapLookup m k'

/-- JS `Map.prototype.set` with string keys. -/
def strMapSet {α : Type} : List (Str × α) → Str → α → List (Str × α)
  | [], k, v => [(k, v)]
  | (k0, v0) :: m, k, v =>
      if k0 = k then (k0, v) :: m else (k0, v0) :: strMapSet m k v

/-- Grouping of the fetched attendance rows by their (unnormalized) `email`
field. -/
def groupByEmail (records : List OfficeAttendanceRecord) :
    List (Str × List OfficeAttendanceRecord) :=
  records.foldl
    (fun m r =>
      strMapSet m r.email ((strMapLookup m r.email).getD [] ++ [r]))
    []

/-- The week starts enumerated by `groupByWeek`'s while loop:
`getWeekStart(startDate)`, stepping 7 days while `current <= endDate`. -/
def weekStartsInRange (startDate endDate : Int) : List Int :=
  let ws := getWeekStart startDate
  let count : Nat := if ws ≤ endDate then ((endDate - ws) / 7 + 1).toNat else 0
  (List.range count).map fun i => ws + 7 * (i : Int)

/-- The function `groupByWeek`: one empty bucket per week in range, then each record is
appended to the bucket of its week; a record whose week has no bucket is
dropped. -/
def groupByWeek (records : List OfficeAttendanceRecord)
    (startDate endDate : Int) : List (Int × List OfficeAttendanceRecord) :=
  let init := (weekStartsInRange startDate endDate).map fun ws =>
    (ws, ([] : List OfficeAttendanceRecord))
  records.foldl
    (fun m r =>
      match mapLookup m (getWeekStart r.date) with
      | some existing => mapSet m (getWeekStart r.date) (existing ++ [r])
      | none => m)
    init

/-- JS `x || null` on a nullable string (the empty string becomes null). -/
def jsOrNull (a : Option Str) : Option Str :=
  match a with
  | none => none
  | some s => if s.isEmpty then none else some s

structure QuebecEmployee where
  email : Str
  name : Str
  department : Option Str
  jobTitle : Option Str
  supervisorEmail : Option Str
deriving DecidableEq, Repr

structure EmployeeComplianceRecord where
  employee : QuebecEmployee
  weeks : List WeeklyCompliance
  totalOfficeDays : Int
  totalRemoteDays : Int
  totalWeeks : Nat
  compliantWeeks : Nat
  complianceRate : Int
  currentWeekStatus : WeekStatus
deriving DecidableEq, Repr

structure ComplianceSummary where
  totalQuebecEmployees : Nat
  employeesWithData : Nat
  overallComplianceRate : Int
  currentWeekCompliant : Nat
  currentWeekAtRisk : Nat
  currentWeekNonCompliant : Nat
deriving DecidableEq, Repr

structure QuebecComplianceReport where
  startDate : Int
  endDate : Int
  summary : ComplianceSummary
  employees : List EmployeeComplianceRecord
  accessContext : Option EmailBasedAccessContext
deriving DecidableEq, Repr

/-- The per-employee body of the report loop. -/
def buildEmployeeRecord (startDate endDate today : Int)
    (attendanceByEmployee : List (Str × List OfficeAttendanceRecord))
    (emp : BambooHREmployee) : EmployeeComplianceRecord :=
  let email := toLower (emp.workEmail.getD [])
  let empAttendance := (strMapLookup attendanceByEmployee email).getD []
  let weeks :=
    calculateWeeklyCompliance (groupByWeek empAttendance startDate endDate)
  let weeksWithData := weeks.filter fun w => decide (0 < w.totalDays)
  let compliantWeeks := (weeksWithData.filter fun w => w.isCompliant).length
  let complianceRate : Int :=
    if 0 < weeksWithData.length then
      jsRound ((compliantWeeks : ℚ) / (weeksWithData.length : ℚ) * 100)
    else 0
  { employee :=
      { email := email
        name := jsOrElse emp.displayName
          (let fl := firstLastName emp
            if fl.isEmpty then email else fl)
        department := jsOrNull emp.department
        jobTitle := jsOrNull emp.jobTitle
        supervisorEmail := jsOrNull emp.supervisorEmail }
    weeks := weeks
    totalOfficeDays := weeks.foldl (fun s w => s + w.officeDays) 0
    totalRemoteDays := weeks.foldl (fun s w => s + w.remoteDays) 0
    totalWeeks := weeksWithData.length
    compliantWeeks := compliantWeeks
    complianceRate := complianceRate
    currentWeekStatus := getCurrentWeekStatus weeks today }

/-- The sort key `statusOrder` of the report's final sort. -/
def statusOrd : WeekStatus → Int
  | WeekStatus.NonCompliant => 0
  | WeekStatus.AtRisk => 1
  | WeekStatus.NoData => 2
  | WeekStatus.Compliant => 3

/-- The report's comparator: status order first, then compliance rate. -/
def recordLe (a b : EmployeeComplianceRecord) : Bool :=
  decide (statusOrd a.currentWeekStatus < statusOrd b.currentWeekStatus) ||
    (decide (statusOrd a.currentWeekStatus = statusOrd b.currentWeekStatus) &&
      decide (a.complianceRate ≤ b.complianceRate))

/-- The function `getQuebecComplianceReport`: `dirFetchAccess` is the outcome of the
directory fetches performed inside `getAccessContextByEmail`, `dirFetch` the
outcome of the report's own `fetchEmployeeDirectory()` call and `attFetch`
the outcome of `fetchOfficeAttendanceData(...)`; a thrown error from the two
latter calls propagates (the function has no try/catch of its own), while
`getAccessContextByEmail` swallows errors internally. -/
def getQuebecComplianceReport (filterEmail : Option Str)
    (weeksBack today : Int)
    (dirFetchAccess dirFetch : Except Unit (List BambooHREmployee))
    (attFetch : Except Unit (List OfficeAttendanceRecord)) :
    Except Unit QuebecComplianceReport :=
  let endDate := getWeekEnd today
  let startDate := endDate - weeksBack * 7 + 1
  let accessContext : Option EmailBasedAccessContext :=
    match filterEmail with
    | some fe =>
        if !fe.isEmpty && !(trim fe).isEmpty then
          some (getAccessContextByEmail fe dirFetchAccess)
        else none
    | none => none
  let allowedEmails : Option (List Str) :=
    accessContext.map fun c => c.allowedEmails
  match dirFetch with
  | Except.error e => Except.error e
  | Except.ok allEmployees =>
      let qc0 := allEmployees.filter fun e =>
        isQuebecEmployee e && truthy e.workEmail && notInactive e
      let quebecEmployees :=
        match allowedEmails with
        | some ae => if 0 < ae.length then accessFilter ae qc0 else qc0
        | none => qc0
      match attFetch with
      | Except.error e => Except.error e
      | Except.ok attendanceData =>
          let attendanceByEmployee := groupByEmail attendanceData
          let employeeRecords := quebecEmployees.map
            (buildEmployeeRecord startDate endDate today attendanceByEmployee)
          let totalWeeksWithData :=
            employeeRecords.foldl (fun s r => s + r.totalWeeks) 0
          let totalCompliantWeeks :=
            employeeRecords.foldl (fun s r => s + r.compliantWeeks) 0
          Except.ok
            { startDate := startDate
              endDate := endDate
              summary :=
                { totalQuebecEmployees := quebecEmployees.length
                  employeesWithData := (employeeRecords.filter fun r =>
                    decide (0 < r.totalWeeks)).length
                  overallComplianceRate :=
                    if 0 < totalWeeksWithData then
                      jsRound ((totalCompliantWeeks : ℚ) /
                        (totalWeeksWithData : ℚ) * 100)
                    else 0
                  currentWeekCompliant := (employeeRecords.filter fun r =>
                    decide (r.currentWeekStatus = WeekStatus.Compliant)).length
                  currentWeekAtRisk := (employeeRecords.filter fun r =>
                    decide (r.currentWeekStatus = WeekStatus.AtRisk)).length
                  currentWeekNonCompliant := (employeeRecords.filter fun r =>
                    decide (r.currentWeekStatus =
                      WeekStatus.NonCompliant)).length }
              employees := insertionSort recordLe employeeRecords
              accessContext := accessContext }

/-! ## Termination and cycle safety of the reporting traversal (C6) -/

/-- Ids of `all` not yet visited, counted with multiplicity. -/
def remainCount (all : List BambooHREmployee) (visited : List Str) : Nat :=
  (all.map fun e => e.id).countP fun i => decide (i ∉ visited)

/-- Invariant of the traversal state: the collected reports have pairwise
distinct ids (no employee is revisited) and every collected id is in the
visited set. -/
def reportsInv (st : List Str × List BambooHREmployee) : Prop :=
  ((st.2.map fun e => e.id).Nodup) ∧ ∀ e ∈ st.2, e.id ∈ st.1

/-- The synthetic 3-node supervisor cycle A→B→C→A, all active with emails. -/
def cycleDirectory : List BambooHREmployee :=
  [{ id := str "A", workEmail := some (str "a@x"),
      supervisorId := some (str "C") },
    { id := str "B", workEmail := some (str "b@x"),
      supervisorId := some (str "A") },
    { id := str "C", workEmail := some (str "c@x"),
      supervisorId := some (str "B") }]

/-! ## Theorems -/

theorem lowerCp_idem (n : Nat) : lowerCp (lowerCp n) = lowerCp n := by
  unfold lowerCp
  split_ifs <;> omega

theorem toLower_idem (s : Str) : toLower (toLower s) = toLower s := by
  unfold toLower
  rw [List.map_map]
  exact List.map_congr_left fun n _ => lowerCp_idem n

theorem isWsCp_lowerCp (n : Nat) : isWsCp (lowerCp n) = isWsCp n := by
  unfold isWsCp lowerCp
  split
  · exact decide_eq_decide.mpr (by omega)
  · rfl

theorem dropWhileWs_map_lowerCp (l : List Nat) :
    (l.map lowerCp).dropWhile isWsCp = (l.dropWhile isWsCp).map lowerCp := by
  induction l with
  | nil => rfl
  | cons a l ih =>
    simp only [List.map_cons, List.dropWhile_cons, isWsCp_lowerCp]
    split
    · exact ih
    · rfl

theorem toLower_trim (s : Str) : toLower (trim s) = trim (toLower s) := by
  unfold toLower trim
  rw [List.map_reverse, ← dropWhileWs_map_lowerCp, List.map_reverse,
    ← dropWhileWs_map_lowerCp]

theorem isLower_toLower (s : Str) : IsLowerStr (toLower s) := toLower_idem s

theorem isLower_normalizeEmail (u : Str) : IsLowerStr (normalizeEmail u) := by
  unfold IsLowerStr normalizeEmail
  rw [toLower_trim, toLower_idem]

/-- C7: for every date, the computed week start is the most recent Monday on
or before it, matching the rule `weekStart = d - ((dayOfWeek d + 6) % 7)`
days; concretely, day 6 (2024-01-07, a Sunday) maps to day 0 (2024-01-01) and
day 7 (2024-01-08, a Monday) maps to itself. -/
theorem claim_C7 :
    (∀ n : Int, getWeekStart n = n - ((dayOfWeek n + 6) % 7)) ∧
    getWeekStart 6 = 0 ∧ getWeekStart 7 = 7 := by
  refine ⟨fun n => ?_, by decide, by decide⟩
  unfold getWeekStart dayOfWeek
  omega

theorem getWeekStart_eq (n : Int) :
    getWeekStart n = n - (((n + 1) % 7 + 6) % 7) := by
  unfold getWeekStart dayOfWeek
  omega

set_option maxHeartbeats 3000000 in
theorem specRemainingWorkdays_eq (today : Int) :
    specRemainingWorkdays today =
      if dayOfWeek today = 0 ∨ dayOfWeek today = 6 then 0
      else 5 - dayOfWeek today := by
  have hc : ∀ j : ℤ, 0 ≤ j →
      ((getWeekStart (today + j) = getWeekStart today ∧
        1 ≤ dayOfWeek (today + j) ∧ dayOfWeek (today + j) ≤ 5) ↔
      j ≤ getWeekStart today + 4 - today) := by
    intro j hj
    rw [getWeekStart_eq, getWeekStart_eq]
    unfold dayOfWeek
    omega
  unfold specRemainingWorkdays
  simp only [List.map_cons, List.map_nil, List.sum_cons, List.sum_nil,
    hc 1 (by norm_num), hc 2 (by norm_num), hc 3 (by norm_num),
    hc 4 (by norm_num), hc 5 (by norm_num), hc 6 (by norm_num)]
  rw [getWeekStart_eq]
  unfold dayOfWeek
  split_ifs <;> omega

/-- C8: the current-week classification equals the spec's rule (`NoData` on a
zero-day bucket, `Compliant` on two office days, else `AtRisk` exactly when
`officeDays` plus the Mon-Fri weekdays strictly after today can still reach
2); concretely, one office day evaluated on Wednesday 2024-01-03 (day 2) is
`AtRisk` and on Friday 2024-01-05 (day 4) is `NonCompliant`. -/
theorem claim_C8 :
    (∀ (weeks : List WeeklyCompliance) (today : Int),
      getCurrentWeekStatus weeks today =
        specCurrentWeekClassification weeks today) ∧
    getCurrentWeekStatus [weekOneOfficeDay] 2 = WeekStatus.AtRisk ∧
    getCurrentWeekStatus [weekOneOfficeDay] 4 = WeekStatus.NonCompliant := by
  refine ⟨fun weeks today => ?_, by decide, by decide⟩
  have hd0 : 0 ≤ dayOfWeek today := by unfold dayOfWeek; omega
  have hd7 : dayOfWeek today < 7 := by unfold dayOfWeek; omega
  simp only [getCurrentWeekStatus, specCurrentWeekClassification]
  cases hfind :
      weeks.find? (fun w => decide (w.weekStart = getWeekStart today)) with
  | none => rfl
  | some w =>
    dsimp only
    rw [specRemainingWorkdays_eq]
    split_ifs <;> first | rfl | omega

/-- C3, counterexample: a week bucket whose only deduplicated day is an
Unknown-location day has `totalDays = 0` (the claim says `totalDays > 0`) and
is classified `NoData` (the claim says it is not). -/
theorem claim_C3_counterexample :
    (dayLocations [unknownDayRecord]).length = 1 ∧
    ¬ 0 < (mkWeek 0 [unknownDayRecord]).totalDays ∧
    getCurrentWeekStatus (calculateWeeklyCompliance [(0, [unknownDayRecord])])
      2 = WeekStatus.NoData := by
  refine ⟨rfl, by decide, by decide⟩

/-- C3 as amended: `officeDays` counts the deduplicated Office days,
`remoteDays` the deduplicated Remote days, and `totalDays` is their sum — an
Unknown-location day counts toward neither, so a week whose deduplicated days
are all Unknown has `totalDays = 0` and is classified `NoData`. -/
theorem claim_C3 (ws : Int) (rs : List OfficeAttendanceRecord) :
    (mkWeek ws rs).officeDays =
      ((dayLocations rs).countP fun d => decide (d.2.1 = Location.Office)) ∧
    (mkWeek ws rs).remoteDays =
      ((dayLocations rs).countP fun d => decide (d.2.1 = Location.Remote)) ∧
    (mkWeek ws rs).totalDays =
      (mkWeek ws rs).officeDays + (mkWeek ws rs).remoteDays ∧
    ∀ today : Int, getWeekStart today = ws →
      (∀ d ∈ dayLocations rs, d.2.1 = Location.Unknown) →
      getCurrentWeekStatus (calculateWeeklyCompliance [(ws, rs)]) today =
        WeekStatus.NoData := by
  refine ⟨rfl, rfl, rfl, fun today hws hunk => ?_⟩
  have hoff :
      (dayLocations rs).countP (fun d => decide (d.2.1 = Location.Office)) =
        0 :=
    List.countP_eq_zero.mpr fun d hd => by simp [hunk d hd]
  have hrem :
      (dayLocations rs).countP (fun d => decide (d.2.1 = Location.Remote)) =
        0 :=
    List.countP_eq_zero.mpr fun d hd => by simp [hunk d hd]
  simp [calculateWeeklyCompliance, insertionSort, insertSorted,
    getCurrentWeekStatus, mkWeek, hws, hoff, hrem, List.find?]

/-- Witness for C3 at the concrete Unknown-only bucket. -/
theorem claim_C3_witness :
    (getWeekStart 2 = 0 ∧
      ∀ d ∈ dayLocations [unknownDayRecord], d.2.1 = Location.Unknown) ∧
    getCurrentWeekStatus (calculateWeeklyCompliance [(0, [unknownDayRecord])])
      2 = WeekStatus.NoData :=
  ⟨⟨by decide, by decide⟩,
    (claim_C3 0 [unknownDayRecord]).2.2.2 2 (by decide) (by decide)⟩

theorem mapLookup_mapSet {α : Type} (m : List (Int × α)) (k k' : Int)
    (v : α) :
    mapLookup (mapSet m k v) k' = if k' = k then some v else mapLookup m k' := by
  induction m with
  | nil => simp [mapSet, mapLookup]
  | cons p t ih =>
    obtain ⟨k0, v0⟩ := p
    by_cases h0 : k0 = k
    · subst h0
      simp only [mapSet, if_pos rfl, mapLookup]
      by_cases hk : k' = k0 <;> simp [hk]
    · simp only [mapSet, if_neg h0, mapLookup, ih]
      by_cases hk0 : k' = k0
      · subst hk0
        simp [h0]
      · by_cases hk : k' = k
        · simp [hk0, hk]
          exact fun h => absurd (hk.trans h) hk0
        · simp [hk0, hk]

theorem dayLocations_append (rs : List OfficeAttendanceRecord)
    (r0 : OfficeAttendanceRecord) :
    dayLocations (rs ++ [r0]) = dedupStep (dayLocations rs) r0 := by
  unfold dayLocations
  rw [List.foldl_append]
  rfl

/-- The dedup invariant: an entry of `dayLocations` comes from a record of
that day and carries its maximal `totalHours`, and every record's day has an
entry. -/
theorem dayLocations_lookup_spec (rs : List OfficeAttendanceRecord) :
    (∀ (d : Int) (e : Location × ℚ),
      mapLookup (dayLocations rs) d = some e →
      (∃ r, r ∈ rs ∧ r.date = d ∧ (r.location, r.totalHours) = e) ∧
      ∀ r2 ∈ rs, r2.date = d → r2.totalHours ≤ e.2) ∧
    ∀ r ∈ rs, mapLookup (dayLocations rs) r.date ≠ none := by
  induction rs using List.reverseRecOn with
  | nil =>
    refine ⟨fun d e he => absurd he (by simp [dayLocations, mapLookup]),
      fun r hr => absurd hr (by simp)⟩
  | append_singleton rs r0 ih =>
    obtain ⟨ihMax, ihSome⟩ := ih
    cases hl : mapLookup (dayLocations rs) r0.date with
    | none =>
      have hnew : dayLocations (rs ++ [r0]) =
          mapSet (dayLocations rs) r0.date (r0.location, r0.totalHours) := by
        rw [dayLocations_append]
        simp [dedupStep, hl]
      refine ⟨fun d e he => ?_, fun r hr => ?_⟩
      · rw [hnew, mapLookup_mapSet] at he
        by_cases hd : d = r0.date
        · rw [if_pos hd] at he
          obtain rfl : (r0.location, r0.totalHours) = e := by
            exact Option.some.inj he
          refine ⟨⟨r0, by simp, hd.symm, rfl⟩, fun r2 hr2 hdate => ?_⟩
          rcases List.mem_append.mp hr2 with h2 | h2
          · have := ihSome r2 h2
            rw [hdate, hd] at this
            exact absurd hl this
          · have : r2 = r0 := by simpa using h2
            subst this
            exact le_refl _
        · rw [if_neg hd] at he
          obtain ⟨⟨r, hrmem, hrd, hre⟩, hub⟩ := ihMax d e he
          refine ⟨⟨r, List.mem_append_left _ hrmem, hrd, hre⟩,
            fun r2 hr2 hdate => ?_⟩
          rcases List.mem_append.mp hr2 with h2 | h2
          · exact hub r2 h2 hdate
          · have : r2 = r0 := by simpa using h2
            subst this
            exact absurd hdate (fun h => hd (h ▸ rfl))
      · rw [hnew, mapLookup_mapSet]
        rcases List.mem_append.mp hr with h2 | h2
        · by_cases hd : r.date = r0.date
          · rw [if_pos hd]
            simp
          · rw [if_neg hd]
            exact ihSome r h2
        · have : r = r0 := by simpa using h2
          subst this
          rw [if_pos rfl]
          simp
    | some e0 =>
      by_cases hgt : e0.2 < r0.totalHours
      · have hnew : dayLocations (rs ++ [r0]) =
            mapSet (dayLocations rs) r0.date (r0.location, r0.totalHours) := by
          rw [dayLocations_append]
          simp [dedupStep, hl, gt_iff_lt, hgt]
        refine ⟨fun d e he => ?_, fun r hr => ?_⟩
        · rw [hnew, mapLookup_mapSet] at he
          by_cases hd : d = r0.date
          · rw [if_pos hd] at he
            obtain rfl : (r0.location, r0.totalHours) = e := Option.some.inj he
            refine ⟨⟨r0, by simp, hd.symm, rfl⟩, fun r2 hr2 hdate => ?_⟩
            rcases List.mem_append.mp hr2 with h2 | h2
            · have hub := (ihMax r0.date e0 hl).2 r2 h2 (hdate.trans hd)
              exact le_of_lt (lt_of_le_of_lt hub hgt)
            · have : r2 = r0 := by simpa using h2
              subst this
              exact le_refl _
          · rw [if_neg hd] at he
            obtain ⟨⟨r, hrmem, hrd, hre⟩, hub⟩ := ihMax d e he
            refine ⟨⟨r, List.mem_append_left _ hrmem, hrd, hre⟩,
              fun r2 hr2 hdate => ?_⟩
            rcases List.mem_append.mp hr2 with h2 | h2
            · exact hub r2 h2 hdate
            · have : r2 = r0 := by simpa using h2
              subst this
              exact absurd hdate (fun h => hd (h ▸ rfl))
        · rw [hnew, mapLookup_mapSet]
          rcases List.mem_append.mp hr with h2 | h2
          · by_cases hd : r.date = r0.date
            · rw [if_pos hd]
              simp
            · rw [if_neg hd]
              exact ihSome r h2
          · have : r = r0 := by simpa using h2
            subst this
            rw [if_pos rfl]
            simp
      · have hnew : dayLocations (rs ++ [r0]) = dayLocations rs := by
          rw [dayLocations_append]
          simp [dedupStep, hl, gt_iff_lt, hgt]
        refine ⟨fun d e he => ?_, fun r hr => ?_⟩
        · rw [hnew] at he
          obtain ⟨⟨r, hrmem, hrd, hre⟩, hub⟩ := ihMax d e he
          refine ⟨⟨r, List.mem_append_left _ hrmem, hrd, hre⟩,
            fun r2 hr2 hdate => ?_⟩
          rcases List.mem_append.mp hr2 with h2 | h2
          · exact hub r2 h2 hdate
          · have : r2 = r0 := by simpa using h2
            subst this
            have he0 : e = e0 := by
              rw [hdate] at hl
              rw [he] at hl
              exact Option.some.inj hl
            rw [he0]
            exact le_of_not_lt hgt
        · rw [hnew]
          rcases List.mem_append.mp hr with h2 | h2
          · exact ihSome r h2
          · have : r = r0 := by simpa using h2
            subst this
            rw [hl]
            simp

/-- C9: a deduplicated per-day entry is the location and hours of a record of
that day whose `totalHours` is maximal among the day's records (ties kept
deterministically: the strict comparison keeps the first maximal record);
concretely, a 2-hour Remote plus a 6-hour Office record on one day dedup to a
single Office day. -/
theorem claim_C9 (rs : List OfficeAttendanceRecord) (d : Int)
    (loc : Location) (hrsLogged : ℚ)
    (hlook : mapLookup (dayLocations rs) d = some (loc, hrsLogged)) :
    ((∃ r, r ∈ rs ∧ r.date = d ∧ r.location = loc ∧
        r.totalHours = hrsLogged) ∧
      ∀ r2 ∈ rs, r2.date = d → r2.totalHours ≤ hrsLogged) ∧
    dayLocations [remoteTwoHours, officeSixHours] =
      [(0, (Location.Office, 6))] ∧
    (mkWeek 0 [remoteTwoHours, officeSixHours]).officeDays = 1 ∧
    (mkWeek 0 [remoteTwoHours, officeSixHours]).remoteDays = 0 := by
  obtain ⟨hmax, _⟩ := dayLocations_lookup_spec rs
  obtain ⟨⟨r, hr, hrd, hre⟩, hub⟩ := hmax d (loc, hrsLogged) hlook
  obtain ⟨hloc, hhrs⟩ := Prod.mk.injEq .. ▸ hre
  exact ⟨⟨⟨r, hr, hrd, by exact hloc, by exact hhrs⟩, hub⟩,
    by decide, by decide, by decide⟩

/-- Witness for C9 at the spec's dedup test vector. -/
theorem claim_C9_witness :
    mapLookup (dayLocations [remoteTwoHours, officeSixHours]) 0 =
      some (Location.Office, 6) ∧
    ((∃ r, r ∈ [remoteTwoHours, officeSixHours] ∧ r.date = 0 ∧
        r.location = Location.Office ∧ r.totalHours = 6) ∧
      ∀ r2 ∈ [remoteTwoHours, officeSixHours], r2.date = 0 →
        r2.totalHours ≤ 6) ∧
    dayLocations [remoteTwoHours, officeSixHours] =
      [(0, (Location.Office, 6))] ∧
    (mkWeek 0 [remoteTwoHours, officeSixHours]).officeDays = 1 ∧
    (mkWeek 0 [remoteTwoHours, officeSixHours]).remoteDays = 0 :=
  ⟨by decide,
    claim_C9 [remoteTwoHours, officeSixHours] 0 Location.Office 6 (by decide)⟩

theorem mem_setAdd_of_mem {l : List Str} {x : Str} (y : Str) (hx : x ∈ l) :
    x ∈ setAdd l y := by
  unfold setAdd
  split
  · exact hx
  · exact List.mem_append_left _ hx

theorem mem_of_mem_setAdd {l : List Str} {x y : Str}
    (hx : x ∈ setAdd l y) : x ∈ l ∨ x = y := by
  unfold setAdd at hx
  split at hx
  · exact Or.inl hx
  · rcases List.mem_append.mp hx with h | h
    · exact Or.inl h
    · exact Or.inr (List.mem_singleton.mp h)

/-- Membership in the accumulator survives the allowed-emails fold of
`getAccessContextByEmail`. -/
theorem foldl_setAdd_mem (l : List BambooHREmployee) (acc : List Str)
    (x : Str) (hx : x ∈ acc) :
    x ∈ l.foldl
      (fun acc r =>
        if truthy r.workEmail then setAdd acc (toLower (r.workEmail.getD []))
        else acc)
      acc := by
  induction l generalizing acc with
  | nil => exact hx
  | cons r t ih =>
    simp only [List.foldl_cons]
    apply ih
    split
    · exact mem_setAdd_of_mem _ hx
    · exact hx

/-- Every string in the allowed-emails fold is lowercase provided the
accumulator's strings are. -/
theorem foldl_setAdd_lower (l : List BambooHREmployee) (acc : List Str)
    (hacc : ∀ x ∈ acc, IsLowerStr x) :
    ∀ x ∈ l.foldl
      (fun acc r =>
        if truthy r.workEmail then setAdd acc (toLower (r.workEmail.getD []))
        else acc)
      acc, IsLowerStr x := by
  induction l generalizing acc with
  | nil => exact hacc
  | cons r t ih =>
    simp only [List.foldl_cons]
    apply ih
    intro x hx
    split at hx
    · rcases mem_of_mem_setAdd hx with h | h
      · exact hacc x h
      · exact h ▸ isLower_toLower _
    · exact hacc x hx

/-- In the error fallback, the not-found branch and the requester-found
branch, `allowedEmails` contains the requester's normalized email. -/
theorem mem_allowedEmails_self (u : Str)
    (fetch : Except Unit (List BambooHREmployee))
    (h : isHRAdminEmailOf u = false) :
    normalizeEmail u ∈ (getAccessContextByEmail u fetch).allowedEmails := by
  unfold getAccessContextByEmail
  cases fetch with
  | error e => simp [selfOnlyContext]
  | ok all =>
    simp only [h, Bool.false_eq_true, if_false]
    split
    · simp [selfOnlyContext]
    · exact foldl_setAdd_mem _ _ _ (List.mem_singleton.mpr rfl)

/-- C1, counterexample: in the HR-admin branch the requester's own email is
not added — an HR admin absent from the directory snapshot (here: the empty
directory) gets an `allowedEmails` set without their own normalized email. -/
theorem claim_C1_counterexample :
    normalizeEmail (str "hr@jestais.com") = str "hr@jestais.com" ∧
    (getAccessContextByEmail (str "hr@jestais.com")
      (Except.ok [])).isHRAdmin = true ∧
    str "hr@jestais.com" ∉
      (getAccessContextByEmail (str "hr@jestais.com")
        (Except.ok [])).allowedEmails := by
  refine ⟨by decide, by decide, by decide⟩

/-- C1, as amended: whenever the requester is not on the HR-admin allowlist —
which covers the requester-found, requester-not-found and error-fallback
branches — `allowedEmails` contains the requester's normalized email.  (In
the HR-admin branch it is instead the directory's work emails, which contain
the requester only if the requester has a matching directory entry.) -/
theorem claim_C1 (u : Str) (fetch : Except Unit (List BambooHREmployee))
    (h : isHRAdminEmailOf u = false) :
    normalizeEmail u ∈ (getAccessContextByEmail u fetch).allowedEmails :=
  mem_allowedEmails_self u fetch h

/-- Witness for C1 at a non-admin requester and a failed directory fetch. -/
theorem claim_C1_witness :
    isHRAdminEmailOf (str "bob@x") = false ∧
    normalizeEmail (str "bob@x") ∈
      (getAccessContextByEmail (str "bob@x")
        (Except.error ())).allowedEmails :=
  ⟨by decide, claim_C1 (str "bob@x") (Except.error ()) (by decide)⟩

/-- C2, counterexample: the HR-admin branch filters only on the presence of a
work email, not on the active status, so an inactive employee's email is in
`allowedEmails` — the claim says inactive employees are not included. -/
theorem claim_C2_counterexample :
    notInactive inactiveEmployee = false ∧
    (getAccessContextByEmail (str "hr@jestais.com")
      (Except.ok [inactiveEmployee])).isHRAdmin = true ∧
    str "x@y" ∈
      (getAccessContextByEmail (str "hr@jestais.com")
        (Except.ok [inactiveEmployee])).allowedEmails := by
  refine ⟨by decide, by decide, by decide⟩

/-- C2, as amended: for an allowlisted requester the context has
`isHRAdmin = true` and `allowedEmails` equal to the lowercased work emails of
exactly those directory employees that have a (truthy) work email — with no
filtering on the active status. -/
theorem claim_C2 (u : Str) (dir : List BambooHREmployee)
    (h : isHRAdminEmailOf u = true) :
    (getAccessContextByEmail u (Except.ok dir)).isHRAdmin = true ∧
    (getAccessContextByEmail u (Except.ok dir)).allowedEmails =
      (dir.filter fun e => truthy e.workEmail).map fun e =>
        toLower (e.workEmail.getD []) := by
  unfold getAccessContextByEmail
  simp [h]

/-- Witness for C2 at the allowlisted email and a one-employee directory. -/
theorem claim_C2_witness :
    isHRAdminEmailOf (str "hr@jestais.com") = true ∧
    ((getAccessContextByEmail (str "hr@jestais.com")
        (Except.ok [inactiveEmployee])).isHRAdmin = true ∧
      (getAccessContextByEmail (str "hr@jestais.com")
          (Except.ok [inactiveEmployee])).allowedEmails =
        ([inactiveEmployee].filter fun e => truthy e.workEmail).map fun e =>
          toLower (e.workEmail.getD [])) :=
  ⟨by decide, claim_C2 (str "hr@jestais.com") [inactiveEmployee] (by decide)⟩

/-- Branch characterization: for an allowlisted requester, `allowedEmails` is
the lowercased work emails of the employees that have one. -/
theorem allowedEmails_hradmin (u : Str) (dir : List BambooHREmployee)
    (h : isHRAdminEmailOf u = true) :
    (getAccessContextByEmail u (Except.ok dir)).allowedEmails =
      (dir.filter fun e => truthy e.workEmail).map fun e =>
        toLower (e.workEmail.getD []) := by
  unfold getAccessContextByEmail
  simp [h]

/-- Branch characterization: requester not found in the directory. -/
theorem allowedEmails_notFound (u : Str) (dir : List BambooHREmployee)
    (h : isHRAdminEmailOf u = false)
    (hf : dir.find? (fun e =>
      match e.workEmail with
      | some w => decide (toLower w = normalizeEmail u)
      | none => false) = none) :
    (getAccessContextByEmail u (Except.ok dir)).allowedEmails =
      [normalizeEmail u] := by
  unfold getAccessContextByEmail
  simp [h, hf, selfOnlyContext]

/-- Branch characterization: requester found in the directory. -/
theorem allowedEmails_found (u : Str) (dir : List BambooHREmployee)
    (cu : BambooHREmployee)
    (h : isHRAdminEmailOf u = false)
    (hf : dir.find? (fun e =>
      match e.workEmail with
      | some w => decide (toLower w = normalizeEmail u)
      | none => false) = some cu) :
    (getAccessContextByEmail u (Except.ok dir)).allowedEmails =
      (fetchReportingStructure dir cu.id).foldl
        (fun acc r =>
          if truthy r.workEmail then setAdd acc (toLower (r.workEmail.getD []))
          else acc)
        [normalizeEmail u] := by
  unfold getAccessContextByEmail
  simp [h, hf]

/-- C10: every element of `allowedEmails` is lowercase (each branch inserts
only `toLowerCase` outputs or the normalized requester email), and the
downstream report filter selects exactly the employees whose lowercased work
email is a member of that list under exact string equality. -/
theorem claim_C10 (u : Str) (fetch : Except Unit (List BambooHREmployee)) :
    (∀ e ∈ (getAccessContextByEmail u fetch).allowedEmails, IsLowerStr e) ∧
    ∀ (allowed : List Str) (l : List BambooHREmployee)
      (emp : BambooHREmployee),
      emp ∈ accessFilter allowed l ↔
        emp ∈ l ∧ truthy emp.workEmail = true ∧
          toLower (emp.workEmail.getD []) ∈ allowed := by
  constructor
  · intro e he
    cases fetch with
    | error err =>
      simp only [getAccessContextByEmail, selfOnlyContext,
        List.mem_singleton] at he
      exact he ▸ isLower_normalizeEmail u
    | ok all =>
      cases hb : isHRAdminEmailOf u with
      | true =>
        rw [allowedEmails_hradmin u all hb] at he
        obtain ⟨emp, hm, heq⟩ := List.mem_map.mp he
        exact heq ▸ isLower_toLower _
      | false =>
        cases hfind : all.find? (fun e =>
            match e.workEmail with
            | some w => decide (toLower w = normalizeEmail u)
            | none => false) with
        | none =>
          rw [allowedEmails_notFound u all hb hfind] at he
          simp only [List.mem_singleton] at he
          exact he ▸ isLower_normalizeEmail u
        | some cu =>
          rw [allowedEmails_found u all cu hb hfind] at he
          refine foldl_setAdd_lower _ _ ?_ e he
          intro x hx
          simp only [List.mem_singleton] at hx
          exact hx ▸ isLower_normalizeEmail u
  · intro allowed l emp
    simp [accessFilter, List.mem_filter, and_assoc]

/-- Witness for C10 at a mixed-case requester with whitespace, plus a
concrete run of the downstream filter characterization. -/
theorem claim_C10_witness :
    (str "a@x" ∈ (getAccessContextByEmail (str " A@X ")
        (Except.error ())).allowedEmails ∧
      IsLowerStr (str "a@x")) ∧
    (inactiveEmployee ∈ accessFilter [str "x@y"] [inactiveEmployee] ↔
      inactiveEmployee ∈ [inactiveEmployee] ∧
        truthy inactiveEmployee.workEmail = true ∧
        toLower (inactiveEmployee.workEmail.getD []) ∈ [str "x@y"]) :=
  ⟨⟨by decide,
      (claim_C10 (str " A@X ") (Except.error ())).1 (str "a@x") (by decide)⟩,
    (claim_C10 (str " A@X ") (Except.error ())).2 [str "x@y"]
      [inactiveEmployee] inactiveEmployee⟩

/-- C4: the schema gives a `totalSeconds = 0` day a `null` score, but the
average in `getEmployeeProductivityData` coerces that `null` to `0` and
divides by the number of all days, so the average over a null-score day and
an 80%-score day evaluates to `40`, not the `80` the claim (and the repo's
own SQL `AVG`, which skips NULLs) requires. -/
theorem claim_C4 :
    productivityScore 0 0 = none ∧
    productivityScore 2880 3600 = some 80 ∧
    (employeeProductivitySummary
      [zeroTimeDay, eightyPercentDay]).avgProductivityScore = some 40 ∧
    (40 : ℚ) ≠ 80 := by
  refine ⟨by with_unfolding_all rfl, by with_unfolding_all rfl,
    by with_unfolding_all rfl, by decide⟩

/-- C5, counterexample: with the access-resolution directory fetch failing
(`dirFetchAccess = .error ()`) but the report's own fetches succeeding, the
report generation succeeds and carries a self-only access context — the
directory-fetch failure was silently converted instead of failing the
report. -/
theorem claim_C5_counterexample :
    (getQuebecComplianceReport (some (str "boss@x")) 4 9 (Except.error ())
        (Except.ok []) (Except.ok [])).map (fun r => r.accessContext) =
      Except.ok (some (selfOnlyContext (str "boss@x"))) := by
  with_unfolding_all rfl

/-- C5, as amended: a failure of the report's own directory fetch or of the
attendance fetch propagates and fails the whole report (no partial report
object), but a directory fetch failure inside `getAccessContextByEmail` is
caught there and converted into a successful self-only access context, with
which report generation proceeds. -/
theorem claim_C5 (filterEmail : Option Str) (weeksBack today : Int)
    (dirFetchAccess dirFetch : Except Unit (List BambooHREmployee))
    (attFetch : Except Unit (List OfficeAttendanceRecord)) :
    (dirFetch = Except.error () →
      getQuebecComplianceReport filterEmail weeksBack today dirFetchAccess
        dirFetch attFetch = Except.error ()) ∧
    (attFetch = Except.error () →
      getQuebecComplianceReport filterEmail weeksBack today dirFetchAccess
        dirFetch attFetch = Except.error ()) ∧
    ∀ (u : Str) (d : List BambooHREmployee)
      (a : List OfficeAttendanceRecord),
      filterEmail = some u → (!u.isEmpty && !(trim u).isEmpty) = true →
      dirFetchAccess = Except.error () → dirFetch = Except.ok d →
      attFetch = Except.ok a →
      (getQuebecComplianceReport filterEmail weeksBack today dirFetchAccess
          dirFetch attFetch).map (fun r => r.accessContext) =
        Except.ok (some (selfOnlyContext (normalizeEmail u))) := by
  refine ⟨fun h => ?_, fun h => ?_, fun u d a hu hcond hacc hdir hatt => ?_⟩
  · rw [h]
    rfl
  · rw [h]
    cases dirFetch with
    | error e => rfl
    | ok l => rfl
  · subst hu hacc hdir hatt
    simp only [getQuebecComplianceReport, hcond, if_true, Except.map]
    rfl

/-- Witness for C5 at concrete fetch outcomes. -/
theorem claim_C5_witness :
    getQuebecComplianceReport (some (str "boss@x")) 4 9 (Except.ok [])
        (Except.error ()) (Except.ok []) = Except.error () ∧
    getQuebecComplianceReport (some (str "boss@x")) 4 9 (Except.ok [])
        (Except.ok []) (Except.error ()) = Except.error () ∧
    (getQuebecComplianceReport (some (str "boss@x")) 4 9 (Except.error ())
        (Except.ok []) (Except.ok [])).map (fun r => r.accessContext) =
      Except.ok (some (selfOnlyContext (normalizeEmail (str "boss@x")))) :=
  ⟨(claim_C5 (some (str "boss@x")) 4 9 (Except.ok []) (Except.error ())
      (Except.ok [])).1 rfl,
    (claim_C5 (some (str "boss@x")) 4 9 (Except.ok []) (Except.ok [])
      (Except.error ())).2.1 rfl,
    (claim_C5 (some (str "boss@x")) 4 9 (Except.error ()) (Except.ok [])
      (Except.ok [])).2.2 (str "boss@x") [] [] rfl (by decide) rfl rfl rfl⟩

theorem remainCount_mono (all : List BambooHREmployee) (vis t : List Str) :
    remainCount all (vis ++ t) ≤ remainCount all vis := by
  unfold remainCount
  apply List.countP_mono_left
  intro i _ hi
  simp only [decide_eq_true_eq] at hi ⊢
  exact fun hmem => hi (List.mem_append_left _ hmem)

theorem remainCount_lt (all : List BambooHREmployee) (vis : List Str)
    (e : BambooHREmployee) (he : e ∈ all) (hv : e.id ∉ vis) :
    remainCount all (vis ++ [e.id]) < remainCount all vis := by
  obtain ⟨s, t, hst⟩ :=
    List.append_of_mem (List.mem_map_of_mem (fun x => x.id) he)
  unfold remainCount
  rw [hst, List.countP_append, List.countP_append, List.countP_cons,
    List.countP_cons]
  have h1 : s.countP (fun i => decide (i ∉ vis ++ [e.id])) ≤
      s.countP (fun i => decide (i ∉ vis)) := by
    apply List.countP_mono_left
    intro i _ hi
    simp only [decide_eq_true_eq] at hi ⊢
    exact fun hmem => hi (List.mem_append_left _ hmem)
  have h2 : t.countP (fun i => decide (i ∉ vis ++ [e.id])) ≤
      t.countP (fun i => decide (i ∉ vis)) := by
    apply List.countP_mono_left
    intro i _ hi
    simp only [decide_eq_true_eq] at hi ⊢
    exact fun hmem => hi (List.mem_append_left _ hmem)
  have h3 : (decide (e.id ∉ vis ++ [e.id])) = false := by simp
  have h4 : (decide (e.id ∉ vis)) = true := by simp [hv]
  rw [h3, h4]
  have e1 : (if false = true then 1 else 0) = 0 := rfl
  have e2 : (if true = true then 1 else 0) = 1 := rfl
  rw [e1, e2]
  omega

/-- The visited set only grows along the traversal. -/
theorem findReports_visited_grows (all : List BambooHREmployee) :
    ∀ (fuel : Nat) (supId : Str) (st : List Str × List BambooHREmployee),
    ∃ t, (findReports all fuel supId st).1 = st.1 ++ t := by
  intro fuel
  induction fuel with
  | zero => exact fun supId st => ⟨[], (List.append_nil _).symm⟩
  | succ f ih =>
    intro supId st
    suffices aux : ∀ (l : List BambooHREmployee)
        (st0 : List Str × List BambooHREmployee),
        ∃ t, (l.foldl
          (fun st2 emp =>
            if reportsTo emp supId && !decide (emp.id ∈ st2.1) then
              findReports all f emp.id (st2.1 ++ [emp.id], st2.2 ++ [emp])
            else st2)
          st0).1 = st0.1 ++ t by
      exact aux all st
    intro l
    induction l with
    | nil => exact fun st0 => ⟨[], (List.append_nil _).symm⟩
    | cons e l ihl =>
      intro st0
      simp only [List.foldl_cons]
      by_cases hc : (reportsTo e supId && !decide (e.id ∈ st0.1)) = true
      · rw [if_pos hc]
        obtain ⟨t0, h0⟩ := ih e.id (st0.1 ++ [e.id], st0.2 ++ [e])
        obtain ⟨t2, h2⟩ :=
          ihl (findReports all f e.id (st0.1 ++ [e.id], st0.2 ++ [e]))
        refine ⟨[e.id] ++ t0 ++ t2, ?_⟩
        rw [h2, h0]
        simp
      · rw [if_neg hc]
        exact ihl st0

/-- Fuel adequacy: any two fuels strictly beyond the number of unvisited ids
compute the same traversal state — the JS recursion terminates at the
visited-set boundary. -/
theorem findReports_fuel_eq (all : List BambooHREmployee) :
    ∀ (n f₁ f₂ : Nat) (supId : Str)
      (st : List Str × List BambooHREmployee),
    remainCount all st.1 ≤ n → n < f₁ → n < f₂ →
    findReports all f₁ supId st = findReports all f₂ supId st := by
  intro n
  induction n using Nat.strong_induction_on with
  | _ n IH =>
    intro f₁ f₂ supId st hst h1 h2
    obtain ⟨a, rfl⟩ : ∃ a, f₁ = a + 1 := ⟨f₁ - 1, by omega⟩
    obtain ⟨b, rfl⟩ : ∃ b, f₂ = b + 1 := ⟨f₂ - 1, by omega⟩
    suffices aux : ∀ (l : List BambooHREmployee), (∀ e ∈ l, e ∈ all) →
        ∀ st0 : List Str × List BambooHREmployee,
        remainCount all st0.1 ≤ n →
        l.foldl
          (fun st2 emp =>
            if reportsTo emp supId && !decide (emp.id ∈ st2.1) then
              findReports all a emp.id (st2.1 ++ [emp.id], st2.2 ++ [emp])
            else st2)
          st0 =
        l.foldl
          (fun st2 emp =>
            if reportsTo emp supId && !decide (emp.id ∈ st2.1) then
              findReports all b emp.id (st2.1 ++ [emp.id], st2.2 ++ [emp])
            else st2)
          st0 by
      exact aux all (fun _ h => h) st hst
    intro l
    induction l with
    | nil => exact fun _ st0 _ => rfl
    | cons e l ihl =>
      intro hsub st0 hst0
      simp only [List.foldl_cons]
      by_cases hc : (reportsTo e supId && !decide (e.id ∈ st0.1)) = true
      · rw [if_pos hc, if_pos hc]
        have hnotmem : e.id ∉ st0.1 := by
          have hb := ((Bool.and_eq_true _ _).mp hc).2
          simpa using hb
        have hdec : remainCount all (st0.1 ++ [e.id]) < remainCount all st0.1 :=
          remainCount_lt all st0.1 e (hsub e (List.mem_cons_self _ _)) hnotmem
        have hinner :
            findReports all a e.id (st0.1 ++ [e.id], st0.2 ++ [e]) =
            findReports all b e.id (st0.1 ++ [e.id], st0.2 ++ [e]) := by
          apply IH (n - 1) (by omega) a b e.id
            (st0.1 ++ [e.id], st0.2 ++ [e]) (by simpa using (by omega :
              remainCount all (st0.1 ++ [e.id]) ≤ n - 1)) (by omega) (by omega)
        rw [hinner]
        obtain ⟨t, hgrow⟩ :=
          findReports_visited_grows all b e.id (st0.1 ++ [e.id], st0.2 ++ [e])
        have hcont :
            remainCount all
              (findReports all b e.id (st0.1 ++ [e.id], st0.2 ++ [e])).1 ≤
              n := by
          rw [hgrow]
          calc remainCount all (st0.1 ++ [e.id] ++ t) =
                remainCount all (st0.1 ++ ([e.id] ++ t)) := by
                  rw [List.append_assoc]
            _ ≤ remainCount all st0.1 := remainCount_mono all st0.1 _
            _ ≤ n := hst0
        exact ihl (fun e' h => hsub e' (List.mem_cons_of_mem _ h)) _ hcont
      · rw [if_neg hc, if_neg hc]
        exact ihl (fun e' h => hsub e' (List.mem_cons_of_mem _ h)) st0 hst0

theorem findReports_inv (all : List BambooHREmployee) :
    ∀ (fuel : Nat) (supId : Str) (st : List Str × List BambooHREmployee),
    reportsInv st → reportsInv (findReports all fuel supId st) := by
  intro fuel
  induction fuel with
  | zero => exact fun _ _ h => h
  | succ f ih =>
    intro supId st hst
    suffices aux : ∀ (l : List BambooHREmployee)
        (st0 : List Str × List BambooHREmployee), reportsInv st0 →
        reportsInv (l.foldl
          (fun st2 emp =>
            if reportsTo emp supId && !decide (emp.id ∈ st2.1) then
              findReports all f emp.id (st2.1 ++ [emp.id], st2.2 ++ [emp])
            else st2)
          st0) by
      exact aux all st hst
    intro l
    induction l with
    | nil => exact fun st0 h => h
    | cons e l ihl =>
      intro st0 h0
      simp only [List.foldl_cons]
      by_cases hc : (reportsTo e supId && !decide (e.id ∈ st0.1)) = true
      · rw [if_pos hc]
        apply ihl
        apply ih
        obtain ⟨hnodup, hsub⟩ := h0
        have hnot : e.id ∉ st0.1 := by
          have hb := ((Bool.and_eq_true _ _).mp hc).2
          simpa using hb
        constructor
        · rw [List.map_append]
          simp only [List.map_cons, List.map_nil]
          refine List.Nodup.append hnodup (List.nodup_singleton _) ?_
          intro x hx hy
          obtain ⟨e', he', rfl⟩ := List.mem_map.mp hx
          have hxv : e'.id ∈ st0.1 := hsub e' he'
          have hxe : e'.id = e.id := List.mem_singleton.mp hy
          exact hnot (hxe ▸ hxv)
        · intro e' he'
          rcases List.mem_append.mp he' with h | h
          · exact List.mem_append_left _ (hsub e' h)
          · have he : e' = e := List.mem_singleton.mp h
            exact he ▸ List.mem_append_right _ (List.mem_singleton.mpr rfl)
      · rw [if_neg hc]
        exact ihl st0 h0

/-- C6: for every directory (cyclic reporting links included) the traversal
of transitive reports is fuel-independent beyond the directory size — the
recursion of the JS original terminates — and it revisits no employee id
(the collected reports have pairwise distinct ids); access resolution for any
non-allowlisted requester returns an `allowedEmails` list containing the
requester's normalized email. -/
theorem claim_C6 (all : List BambooHREmployee) (managerId : Str)
    (f₁ f₂ : Nat) (h₁ : all.length < f₁) (h₂ : all.length < f₂) :
    findReports (all.filter isActiveWithEmail) f₁ managerId ([], []) =
      findReports (all.filter isActiveWithEmail) f₂ managerId ([], []) ∧
    ((fetchReportingStructure all managerId).map fun e => e.id).Nodup ∧
    ∀ (u : Str) (fetch : Except Unit (List BambooHREmployee)),
      isHRAdminEmailOf u = false →
      normalizeEmail u ∈ (getAccessContextByEmail u fetch).allowedEmails := by
  have hrc : remainCount (all.filter isActiveWithEmail) [] ≤ all.length := by
    unfold remainCount
    calc ((all.filter isActiveWithEmail).map fun e => e.id).countP
          (fun i => decide (i ∉ ([] : List Str))) ≤
        ((all.filter isActiveWithEmail).map fun e => e.id).length :=
          List.countP_le_length _
      _ = (all.filter isActiveWithEmail).length := List.length_map _ _
      _ ≤ all.length := List.length_filter_le _ _
  refine ⟨?_, ?_, fun u fetch h => mem_allowedEmails_self u fetch h⟩
  · exact findReports_fuel_eq (all.filter isActiveWithEmail) all.length f₁ f₂
      managerId ([], []) hrc h₁ h₂
  · exact (findReports_inv (all.filter isActiveWithEmail)
      ((all.filter isActiveWithEmail).length + 1) managerId ([], [])
      ⟨List.nodup_nil, fun e h => absurd h (List.not_mem_nil e)⟩).1

/-- Witness for C6 at the synthetic 3-node cycle. -/
theorem claim_C6_witness :
    (cycleDirectory.length < 4 ∧ cycleDirectory.length < 9) ∧
    (findReports (cycleDirectory.filter isActiveWithEmail) 4 (str "A")
        ([], []) =
      findReports (cycleDirectory.filter isActiveWithEmail) 9 (str "A")
        ([], []) ∧
    ((fetchReportingStructure cycleDirectory (str "A")).map
      fun e => e.id).Nodup ∧
    ∀ (u : Str) (fetch : Except Unit (List BambooHREmployee)),
      isHRAdminEmailOf u = false →
      normalizeEmail u ∈ (getAccessContextByEmail u fetch).allowedEmails) :=
  ⟨⟨by decide, by decide⟩,
    claim_C6 cycleDirectory (str "A") 4 9 (by decide) (by decide)⟩

end MyReports

